import Mathlib

/-!
Verification of the status-subresource merge engine of the `k8s_status`
Ansible module (`plugins/modules/k8s_status.py`).

The module manipulates JSON/YAML-like Python data: dictionaries, lists,
strings, ints, booleans and `None`.  We embed those values as the inductive
type `Value` below, and embed each Python function of the module as a Lean
function over `Value`.  Fallible Python code (code that can raise
`KeyError`, `AttributeError`, `TypeError` or `ValueError`) is embedded in
the `Except PyErr` monad.  Python dictionaries are modelled as association
lists in insertion order with unique keys (Python dicts preserve insertion
order and cannot hold a duplicate key).
-/

/-- A Python value as used by the module: `None`, `bool`, `int`, `str`,
`list`, and `dict` with string keys (the only dict keys that occur in the
module's data).  Floats do not occur in any of the inputs treated here. -/
inductive Value where
  | null : Value
  | bool (b : Bool) : Value
  | int (n : Int) : Value
  | str (s : String) : Value
  | list (elems : List Value) : Value
  | obj (fields : List (String × Value)) : Value
deriving Repr, Inhabited

/-- Python exceptions raised by the module's code paths. -/
inductive PyErr where
  | attributeError (msg : String) : PyErr
  | typeError (msg : String) : PyErr
  | keyError (key : String) : PyErr
  | valueError (msg : String) : PyErr
deriving Repr, DecidableEq

mutual

def valueDecEq : (a b : Value) → Decidable (a = b)
  | .null, .null => isTrue rfl
  | .null, .bool _ => isFalse nofun
  | .null, .int _ => isFalse nofun
  | .null, .str _ => isFalse nofun
  | .null, .list _ => isFalse nofun
  | .null, .obj _ => isFalse nofun
  | .bool _, .null => isFalse nofun
  | .bool a, .bool b =>
    if h : a = b then isTrue (by rw [h]) else isFalse (fun hh => h (by injection hh))
  | .bool _, .int _ => isFalse nofun
  | .bool _, .str _ => isFalse nofun
  | .bool _, .list _ => isFalse nofun
  | .bool _, .obj _ => isFalse nofun
  | .int _, .null => isFalse nofun
  | .int _, .bool _ => isFalse nofun
  | .int a, .int b =>
    if h : a = b then isTrue (by rw [h]) else isFalse (fun hh => h (by injection hh))
  | .int _, .str _ => isFalse nofun
  | .int _, .list _ => isFalse nofun
  | .int _, .obj _ => isFalse nofun
  | .str _, .null => isFalse nofun
  | .str _, .bool _ => isFalse nofun
  | .str _, .int _ => isFalse nofun
  | .str a, .str b =>
    if h : a = b then isTrue (by rw [h]) else isFalse (fun hh => h (by injection hh))
  | .str _, .list _ => isFalse nofun
  | .str _, .obj _ => isFalse nofun
  | .list _, .null => isFalse nofun
  | .list _, .bool _ => isFalse nofun
  | .list _, .int _ => isFalse nofun
  | .list _, .str _ => isFalse nofun
  | .list a, .list b =>
    match valueListDecEq a b with
    | isTrue h => isTrue (by rw [h])
    | isFalse h => isFalse (fun hh => h (by injection hh))
  | .list _, .obj _ => isFalse nofun
  | .obj _, .null => isFalse nofun
  | .obj _, .bool _ => isFalse nofun
  | .obj _, .int _ => isFalse nofun
  | .obj _, .str _ => isFalse nofun
  | .obj _, .list _ => isFalse nofun
  | .obj a, .obj b =>
    match valueFieldsDecEq a b with
    | isTrue h => isTrue (by rw [h])
    | isFalse h => isFalse (fun hh => h (by injection hh))

def valueListDecEq : (a b : List Value) → Decidable (a = b)
  | [], [] => isTrue rfl
  | [], _ :: _ => isFalse nofun
  | _ :: _, [] => isFalse nofun
  | x :: xs, y :: ys =>
    match valueDecEq x y with
    | isFalse h => isFalse (fun hh => h (by injection hh))
    | isTrue h1 =>
      match valueListDecEq xs ys with
      | isTrue h2 => isTrue (by rw [h1, h2])
      | isFalse h => isFalse (fun hh => h (by injection hh))

def valueFieldsDecEq : (a b : List (String × Value)) → Decidable (a = b)
  | [], [] => isTrue rfl
  | [], _ :: _ => isFalse nofun
  | _ :: _, [] => isFalse nofun
  | (k, v) :: xs, (k2, v2) :: ys =>
    if hk : k = k2 then
      match valueDecEq v v2 with
      | isFalse h => isFalse (fun hh => by
          injection hh with h1 h2
          exact h (congrArg Prod.snd h1))
      | isTrue h1 =>
        match valueFieldsDecEq xs ys with
        | isTrue h2 => isTrue (by rw [hk, h1, h2])
        | isFalse h => isFalse (fun hh => h (by injection hh))
    else isFalse (fun hh => by
      injection hh with h1 h2
      exact hk (congrArg Prod.fst h1))

end

instance : DecidableEq Value := valueDecEq

instance {ε α : Type} [DecidableEq ε] [DecidableEq α] : DecidableEq (Except ε α) :=
  fun a b =>
    match a, b with
    | .ok x, .ok y =>
      if h : x = y then isTrue (by rw [h]) else isFalse (fun hh => h (by injection hh))
    | .ok _, .error _ => isFalse nofun
    | .error _, .ok _ => isFalse nofun
    | .error x, .error y =>
      if h : x = y then isTrue (by rw [h]) else isFalse (fun hh => h (by injection hh))

/-- Lookup in a Python dict (association list, first match).  Python dicts
have unique keys, so the first match is the only one. -/
def lookupKey : List (String × Value) → String → Option Value
  | [], _ => none
  | (k, v) :: rest, key => if k == key then some v else lookupKey rest key

/-- `d[key] = val` on a Python dict: an existing key keeps its position and
gets the new value; a fresh key is appended at the end. -/
def dictSet : List (String × Value) → String → Value → List (String × Value)
  | [], key, val => [(key, val)]
  | (k, v) :: rest, key, val =>
    if k == key then (k, val) :: rest else (k, v) :: dictSet rest key val

/-- `del d[key]` on a Python dict (the module only deletes keys it has
checked are present; on a unique-key dict this removes the binding). -/
def dictDel (fields : List (String × Value)) (key : String) : List (String × Value) :=
  fields.filter (fun kv => kv.1 ≠ key)

/-- `d.get(key)` result with Python `None` for a missing key. -/
def dictGetD (fields : List (String × Value)) (key : String) : Value :=
  (lookupKey fields key).getD .null

/-- Python truthiness (`bool(v)`) for the embedded values. -/
def pyTruthy : Value → Bool
  | .null => false
  | .bool b => b
  | .int n => n != 0
  | .str s => !s.isEmpty
  | .list l => !l.isEmpty
  | .obj l => !l.isEmpty

mutual

/-- Python `==` on the embedded values: `None` equals only `None`; `bool`
and `int` compare numerically (`True == 1`); strings compare as strings;
lists compare elementwise; dicts compare order-insensitively (same size and
every key of the left dict bound in the right one to an equal value — with
unique keys this is exactly CPython dict equality). -/
def pyEq : Value → Value → Bool
  | .null, .null => true
  | .bool a, .bool b => a == b
  | .bool a, .int n => (if a then (1 : Int) else 0) == n
  | .int n, .bool a => n == (if a then (1 : Int) else 0)
  | .int a, .int b => a == b
  | .str a, .str b => a == b
  | .list a, .list b => pyEqList a b
  | .obj a, .obj b => a.length == b.length && pyEqObj a b
  | _, _ => false

def pyEqList : List Value → List Value → Bool
  | [], [] => true
  | a :: as, b :: bs => pyEq a b && pyEqList as bs
  | _, _ => false

def pyEqObj : List (String × Value) → List (String × Value) → Bool
  | [], _ => true
  | (k, v) :: rest, b =>
    (match lookupKey b k with
     | some w => pyEq v w
     | none => false) && pyEqObj rest b

end

/-- Python iteration `for x in v`: lists yield their elements, strings
yield their characters (as one-character strings), dicts yield their keys;
`None`, `bool` and `int` raise `TypeError`. -/
def pyIter : Value → Except PyErr (List Value)
  | .list l => .ok l
  | .str s => .ok (s.toList.map (fun c => .str (String.singleton c)))
  | .obj fields => .ok (fields.map (fun kv => .str kv.1))
  | _ => .error (.typeError "object is not iterable")

/-- Does `pat` occur at the head of `cs`? -/
def charsStartWith : List Char → List Char → Bool
  | [], _ => true
  | _ :: _, [] => false
  | p :: ps, c :: cs => p == c && charsStartWith ps cs

/-- Does `pat` occur anywhere in `cs` (Python substring containment)? -/
def charsContain (pat : List Char) : List Char → Bool
  | [] => charsStartWith pat []
  | c :: rest => charsStartWith pat (c :: rest) || charsContain pat rest

/-- Python `key in v` for the membership tests the module performs:
dict membership is a key test, string membership is a substring test,
list membership uses `==`; other receivers raise `TypeError`. -/
def pyInStr (key : String) : Value → Except PyErr Bool
  | .obj fields => .ok (lookupKey fields key).isSome
  | .str s => .ok (charsContain key.toList s.toList)
  | .list l => .ok (l.any (fun v => pyEq v (.str key)))
  | _ => .error (.typeError "argument is not a container")

/-- `v.get(key)` on an arbitrary value: only dicts have `.get`;
anything else raises `AttributeError`.  A missing key yields `None`. -/
def pyGetAttrGet (v : Value) (key : String) : Except PyErr Value :=
  match v with
  | .obj fields => .ok (dictGetD fields key)
  | _ => .error (.attributeError "get")

/-- `v.get(key, default)` on an arbitrary value. -/
def pyGetAttrGetDefault (v : Value) (key : String) (dflt : Value) : Except PyErr Value :=
  match v with
  | .obj fields => .ok ((lookupKey fields key).getD dflt)
  | _ => .error (.attributeError "get")

/-- `v[key]` with a string subscript: a dict either yields the value or
raises `KeyError`; any other receiver raises `TypeError`. -/
def pyIndexStr (v : Value) (key : String) : Except PyErr Value :=
  match v with
  | .obj fields =>
    match lookupKey fields key with
    | some w => .ok w
    | none => .error (.keyError key)
  | _ => .error (.typeError "value is not subscriptable")

/-- `v[key] = w` with a string subscript: only dicts support assignment. -/
def pySetItemStr (v : Value) (key : String) (w : Value) : Except PyErr Value :=
  match v with
  | .obj fields => .ok (.obj (dictSet fields key w))
  | _ => .error (.typeError "value does not support item assignment")

/-! ## Regular expressions of `validate_conditions` (lines 236-239) -/

/-- One ASCII apostrophe, kept out of the literal text. -/
def pySq : String := String.singleton (Char.ofNat 39)

/-- Python `$` in `re.match` also matches just before a single trailing
newline; none of the two patterns below can match a newline in their core,
so a match against `s` is exactly a core match against `s` with one
trailing newline removed. -/
def stripTrailingNewline (cs : List Char) : List Char :=
  if cs.getLast? == some (Char.ofNat 10) then cs.dropLast else cs

/-- `re.match(r"^(?:[A-Z]*[a-z]*)+$", s)`.  Each repetition of the group
consumes a run of uppercase letters followed by a run of lowercase
letters, and both runs may be empty, so the pattern accepts exactly the
strings made of ASCII letters only (each letter can form its own
repetition), including the empty string. -/
def camel_case_match (s : String) : Bool :=
  (stripTrailingNewline s.toList).all (fun c => c.isUpper || c.isLower)

def takeDigits : Nat → List Char → Option (List Char)
  | 0, cs => some cs
  | _ + 1, [] => none
  | n + 1, c :: cs => if c.isDigit then takeDigits n cs else none

def takeChar (ch : Char) : List Char → Option (List Char)
  | [] => none
  | c :: cs => if c == ch then some cs else none

/-- Greedy `\d+`. -/
def takeDigits1 : List Char → Option (List Char)
  | [] => none
  | c :: cs => if c.isDigit then some (cs.dropWhile Char.isDigit) else none

/-- An optional group `(...)?`: taken when it fully matches, skipped
otherwise.  In the RFC3339 pattern every optional group starts with a
character (`:` or `.`) that no later alternative can consume, so this
backtracking-free reading is equivalent to the regex. -/
def tryOpt (f : List Char → Option (List Char)) (cs : List Char) : List Char :=
  (f cs).getD cs

/-- `(([+-]\d\d:\d\d)|Z)`. -/
def takeTZ (cs : List Char) : Option (List Char) :=
  match cs with
  | [] => none
  | c :: rest =>
    if c == 'Z' then some rest
    else if c == '+' || c == '-' then
      ((takeDigits 2 rest).bind (takeChar ':')).bind (takeDigits 2)
    else none

/-- Anchored core of
`^\d{4}-\d\d-\d\d[T ]\d\d:\d\d(:\d\d)?(\.\d+)?(([+-]\d\d:\d\d)|Z)$`. -/
def rfc3339_core (cs0 : List Char) : Bool :=
  match ((((takeDigits 4 cs0).bind (takeChar '-')).bind
      (takeDigits 2)).bind (takeChar '-')).bind (takeDigits 2) with
  | none => false
  | some cs1 =>
    match cs1 with
    | [] => false
    | c :: cs2 =>
      if !(c == 'T' || c == ' ') then false
      else
        match ((takeDigits 2 cs2).bind (takeChar ':')).bind (takeDigits 2) with
        | none => false
        | some cs3 =>
          let cs4 := tryOpt (fun cs => (takeChar ':' cs).bind (takeDigits 2)) cs3
          let cs5 := tryOpt (fun cs => (takeChar '.' cs).bind takeDigits1) cs4
          match takeTZ cs5 with
          | some [] => true
          | _ => false

/-- `re.match(RFC3339_datetime, s)` as a Boolean (lines 237-239). -/
def rfc3339_match (s : String) : Bool :=
  rfc3339_core (stripTrailingNewline s.toList)

/-! ## Python `str()` of a value, used in error-message formatting -/

mutual

/-- `repr(v)` for the plain values occurring here (string contents are
assumed free of characters that `repr` would escape). -/
def pyReprV : Value → String
  | .null => "None"
  | .bool b => if b then "True" else "False"
  | .int n => toString n
  | .str s => pySq ++ s ++ pySq
  | .list l => "[" ++ String.intercalate ", " (pyReprElems l) ++ "]"
  | .obj f => "\x7b" ++ String.intercalate ", " (pyReprFields f) ++ "\x7d"

def pyReprElems : List Value → List String
  | [] => []
  | v :: rest => pyReprV v :: pyReprElems rest

def pyReprFields : List (String × Value) → List String
  | [] => []
  | (k, v) :: rest => (pySq ++ k ++ pySq ++ ": " ++ pyReprV v) :: pyReprFields rest

end

/-- `str(v)`: the string itself for strings, `repr` otherwise. -/
def pyStr : Value → String
  | .str s => s
  | v => pyReprV v

/-! ## `validate_conditions` (lines 225-276) -/

def VALID_KEYS : List String :=
  ["type", "status", "reason", "message", "lastHeartbeatTime", "lastTransitionTime"]

def REQUIRED : List String := ["type", "status"]

def STATUS_ENUM : List String := ["True", "False", "Unknown"]

/-- The key list of the timestamp-format loop exactly as written on line
268 of the source.  Note the capital B in the first entry: it differs from
the accepted field name `lastHeartbeatTime` in `VALID_KEYS`. -/
def TIMESTAMP_KEYS : List String := ["lastHeartBeatTime", "lastTransitionTime"]

/-- Python `repr` of a list of strings, as `str.format` renders
`VALID_KEYS` in the unknown-field message. -/
def pyListReprStr (l : List String) : String :=
  "[" ++ String.intercalate ", " (l.map (fun s => pySq ++ s ++ pySq)) ++ "]"

/-- Lines 247-253: the first key (in insertion order) outside the fixed
field set causes a `ValueError`. -/
def checkUnknownKeys : List (String × Value) → Except PyErr Unit
  | [] => .ok ()
  | (k, _) :: rest =>
    if VALID_KEYS.contains k then checkUnknownKeys rest
    else .error (.valueError
      (k ++ " is not a valid field for a condition, accepted fields are " ++
        pyListReprStr VALID_KEYS))

/-- Lines 254-256: `if not condition.get(key)` — a missing, `None`, empty
or otherwise falsy required field fails. -/
def checkRequired (fields : List (String × Value)) : Except PyErr Unit :=
  match REQUIRED.find? (fun k => !(pyTruthy (dictGetD fields k))) with
  | some k => .error (.valueError ("Condition `" ++ k ++ "` must be set"))
  | none => .ok ()

/-- Lines 258-263: list membership of `condition["status"]` in the enum,
via Python `==`. -/
def checkStatusEnum (fields : List (String × Value)) : Except PyErr Unit := do
  let statusVal ← pyIndexStr (.obj fields) "status"
  if STATUS_ENUM.any (fun s => pyEq statusVal (.str s)) then pure ()
  else .error (.valueError
    ("Condition `status` must be one of [\"True\", \"False\", \"Unknown\"], not " ++
      pyStr statusVal))

/-- Lines 265-266: a truthy `reason` must match the CamelCase pattern;
`re.match` raises `TypeError` on a non-string argument. -/
def checkReason (fields : List (String × Value)) : Except PyErr Unit :=
  if pyTruthy (dictGetD fields "reason") then
    match dictGetD fields "reason" with
    | .str s =>
      if camel_case_match s then .ok ()
      else .error (.valueError "Condition `reason` must be a single, CamelCase word")
    | _ => .error (.typeError "expected string or bytes-like object")
  else .ok ()

/-- Lines 268-272, body for one `key` of `TIMESTAMP_KEYS`: a truthy value
under that key must match the RFC3339 pattern. -/
def checkTimestamp (fields : List (String × Value)) (key : String) : Except PyErr Unit :=
  if pyTruthy (dictGetD fields key) then
    match dictGetD fields key with
    | .str s =>
      if rfc3339_match s then .ok ()
      else .error (.valueError ("`" ++ key ++ "` must be a RFC3339 compliant datetime string"))
    | _ => .error (.typeError "expected string or bytes-like object")
  else .ok ()

/-- `validate_condition` (lines 241-274): a condition must be a dict; a
Boolean `status` is coerced to its string form in place; then the unknown
-key, required-field, status-enum, reason and timestamp checks run in
source order, and the (possibly coerced) condition is returned. -/
def validate_condition (condition : Value) : Except PyErr Value :=
  match condition with
  | .obj fields0 =>
    let fields :=
      match lookupKey fields0 "status" with
      | some (.bool b) => dictSet fields0 "status" (.str (if b then "True" else "False"))
      | _ => fields0
    do
      checkUnknownKeys fields
      checkRequired fields
      checkStatusEnum fields
      checkReason fields
      TIMESTAMP_KEYS.forM (checkTimestamp fields)
      pure (.obj fields)
  | _ => .error (.valueError "`conditions` must be a list of objects")

/-- `validate_conditions` (line 276): validate each element left to right. -/
def validate_conditions (conditions : List Value) : Except PyErr (List Value) :=
  conditions.mapM validate_condition

/-! ## Condition merging (`merge_status` / `get_condition_idx`, lines 468-489) -/

/-- `condition.get("type")` as performed during the index scan (line 487):
`None` for a dict without the key, `AttributeError` for a non-dict. -/
def condTypeGet (c : Value) : Except PyErr Value :=
  pyGetAttrGet c "type"

/-- `get_condition_idx` (lines 485-489): index of the first condition whose
`type` field compares `==` to `name`, else `None`. -/
def get_condition_idx : List Value → Value → Except PyErr (Option Nat)
  | [], _ => .ok none
  | c :: rest, name => do
    let t ← condTypeGet c
    if pyEq t name then pure (some 0)
    else do
      let r ← get_condition_idx rest name
      pure (r.map (· + 1))

/-- The `for condition in new_conditions` loop of `merge_status` (lines
476-481): look the new condition's `type` up in the evolving merged list;
replace in place on a hit, append otherwise. -/
def merge_loop : List Value → List Value → Except PyErr (List Value)
  | merged, [] => .ok merged
  | merged, c :: rest => do
    let name ← pyIndexStr c "type"
    match ← get_condition_idx merged name with
    | some i => merge_loop (merged.set i c) rest
    | none => merge_loop (merged ++ [c]) rest

/-- `merge_status` restricted to the two condition lists themselves (the
spec's `mergeConditions`): if either list is empty (falsy) the result is
`new` unchanged (line 471-472), else the merge loop runs on a deep copy of
`old` (identity in this pure embedding). -/
def merge_conditions (old new : List Value) : Except PyErr (List Value) :=
  if old.isEmpty || new.isEmpty then .ok new
  else merge_loop old new

/-- `merge_status` (lines 468-483) on whole status documents.  A truthy
non-list `conditions` value cannot survive the loop (its elements or item
assignment raise); the embedding raises the `TypeError` up front. -/
def merge_status (old new : Value) : Except PyErr Value := do
  let old_conditions ← pyGetAttrGetDefault old "conditions" (.list [])
  let new_conditions ← pyGetAttrGetDefault new "conditions" (.list [])
  if !(pyTruthy old_conditions && pyTruthy new_conditions) then
    pure new
  else
    match old_conditions, new_conditions with
    | .list oldL, .list newL => do
      let merged ← merge_loop oldL newL
      pySetItemStr new "conditions" (.list merged)
    | _, _ => .error (.typeError "conditions value is not a list")

/-! ## `clean_last_transition_time` (lines 425-448) -/

/-- Loop body for one element `item` of the conditions value:
`if "lastTransitionTime" in item: del item["lastTransitionTime"]`. -/
def clean_condition_item (item : Value) : Except PyErr Value := do
  let present ← pyInStr "lastTransitionTime" item
  if present then
    match item with
    | .obj fields => pure (.obj (dictDel fields "lastTransitionTime"))
    | _ => .error (.typeError "object does not support item deletion")
  else pure item

/-- `clean_last_transition_time`: `copy.deepcopy(status)` allocates a
structure sharing nothing with the argument, so the in-place deletions
below touch only the copy and the caller's `status` value is unchanged by
the call; the embedding returns the mutated copy.  The loop iterates over
`updated_old_status.get("conditions", [])`. -/
def clean_last_transition_time (status : Value) : Except PyErr Value :=
  match status with
  | .obj fields =>
    match lookupKey fields "conditions" with
    | some (.list items) => do
      let items2 ← items.mapM clean_condition_item
      pure (.obj (dictSet fields "conditions" (.list items2)))
    | some other => do
      -- iterating any other value yields fresh non-dict items (characters
      -- or keys); the loop either raises or deletes nothing
      let elems ← pyIter other
      let _ ← elems.mapM clean_condition_item
      pure (.obj fields)
    | none => pure (.obj fields)
  | _ => .error (.attributeError "get")

/-! ## `object_contains` (lines 491-513) -/

/-- `list_is_subset` (lines 500-501): `all(item in obj for item in
subset)` — the generator first iterates `subset` (raising `TypeError` on a
non-iterable), and each membership test on the list `obj` uses `==`. -/
def list_is_subset (objElems : List Value) (subset : Value) : Except PyErr Bool := do
  let items ← pyIter subset
  pure (items.all (fun item => objElems.any (fun o => pyEq o item)))

mutual

/-- `dict_is_subset` (lines 492-498): `subset.items()` raises
`AttributeError` on a non-dict; the list comprehension evaluates every
pair left to right (no short-circuiting), then `all` folds the results. -/
def dict_is_subset (obj subset : Value) : Except PyErr Bool :=
  match subset with
  | .obj sfields => do
    let results ← containsPairs obj sfields
    pure (results.all id)
  | _ => .error (.attributeError "items")

/-- One comprehension element per `(k, v)` of the subset:
`mapping.get(type(obj.get(k)), mapping["default"])(obj.get(k), v)` —
dispatch on the type of the observed value at `k`. -/
def containsPairs (obj : Value) : List (String × Value) → Except PyErr (List Bool)
  | [] => .ok []
  | (k, v) :: rest => do
    let ov ← pyGetAttrGet obj k
    let b ←
      match ov with
      | .obj _ => dict_is_subset ov v
      | .list l => list_is_subset l v
      | _ => pure (pyEq ov v)
    let bs ← containsPairs obj rest
    pure (b :: bs)

end

/-- `object_contains` (lines 491-513). -/
def object_contains (obj subset : Value) : Except PyErr Bool :=
  dict_is_subset obj subset

/-! ## The decision engine (`execute_module` / `patch`, lines 404-466) -/

/-- Outcome of an invocation, as far as the merge engine decides it:
either the observed instance is returned unchanged (`changed=false`), or a
merged status document is sent as a patch (`changed=true`). -/
inductive Decision where
  | noChange : Decision
  | patch (mergedStatus : Value) : Decision
deriving Repr, DecidableEq

/-- The decision logic of `patch` (lines 450-456): strip
`lastTransitionTime` from a copy of the observed status, test containment
of the desired status in the stripped copy, and on failure merge the
desired status into the original observed status. -/
def patch_decision (observedStatus desiredStatus : Value) : Except PyErr Decision := do
  let updated_old_status ← clean_last_transition_time observedStatus
  let contained ← object_contains updated_old_status desiredStatus
  if contained then pure .noChange
  else do
    let merged ← merge_status observedStatus desiredStatus
    pure (.patch merged)

/-- The dispatch of `execute_module` (lines 407-410).  `__init__` (line
370) stores the Boolean `replace` parameter in `self.replace`; the
instance attribute shadows the class-level `replace` method, so line 408
calls a `bool` and raises `TypeError`.  The `else` branch reaches the
`patch` method normally. -/
def execute_decision (replaceFlag : Bool) (observedStatus desiredStatus : Value) :
    Except PyErr Decision :=
  if replaceFlag then .error (.typeError "bool object is not callable")
  else patch_decision observedStatus desiredStatus

/-! ## `__init__` input handling (lines 372-381) -/

def CONFLICT_MSG : String :=
  "You cannot specify conditions in both the `status` and `conditions` parameters"

/-- Lines 372-381: default the `status` parameter to an empty dict,
validate the `conditions` parameter (defaulted to an empty list), then —
only after validation — test the three-way truthy conjunction
`self.conditions and self.status and self.status.get("conditions")`
(short-circuiting left to right) and raise the conflict `ValueError` when
it holds; finally store non-empty validated conditions into the status.
The returned value is the `self.status` the decision engine later uses. -/
def module_init (statusParam : Option Value) (conditionsParam : Option (List Value)) :
    Except PyErr Value := do
  let status :=
    match statusParam with
    | some v => if pyTruthy v then v else Value.obj []
    | none => Value.obj []
  let conditions ← validate_conditions (conditionsParam.getD [])
  let conflict ←
    if conditions.isEmpty then pure false
    else if !(pyTruthy status) then pure false
    else do
      let sc ← pyGetAttrGet status "conditions"
      pure (pyTruthy sc)
  if conflict then
    .error (.valueError CONFLICT_MSG)
  else if conditions.isEmpty then
    pure status
  else
    pySetItemStr status "conditions" (.list conditions)

/-! ## The module's argument specification (lines 192-210 and
`module_utils/args_common.py`) -/

def AUTH_ARG_SPEC_KEYS : List String :=
  ["kubeconfig", "context", "host", "api_key", "username", "password",
   "validate_certs", "ca_cert", "client_cert", "client_key", "proxy",
   "persist_config"]

def STATUS_ARG_SPEC_KEYS : List String := ["status", "conditions", "replace"]

def NAME_ARG_SPEC_KEYS : List String := ["kind", "name", "namespace", "api_version"]

/-- Every parameter name the module's `argspec` property (lines 515-521)
recognizes. -/
def argspec_keys : List String :=
  AUTH_ARG_SPEC_KEYS ++ STATUS_ARG_SPEC_KEYS ++ NAME_ARG_SPEC_KEYS

/-! ## Derived definitions used by the proofs and the concrete
inputs of the verified examples -/

/-- A condition as the merge loop reads it: a dict whose `type` key holds
a string (the shape every validated condition has). -/
def hasStrType (c : Value) : Bool :=
  match c with
  | .obj f =>
    match dictGetD f "type" with
    | .str _ => true
    | _ => false
  | _ => false

/-- The value `get_condition_idx` compares for a dict condition
(`condition.get("type")`, defaulting to `None`). -/
def condTypeD : Value → Value
  | .obj f => dictGetD f "type"
  | _ => .null

/-- The type name of a string-typed condition. -/
def condTypeStr (c : Value) : String :=
  match condTypeD c with
  | .str s => s
  | _ => ""

/-- The pure content of `get_condition_idx` on a list of dicts. -/
def findTypeIdx : List Value → Value → Option Nat
  | [], _ => none
  | c :: rest, n =>
    if pyEq (condTypeD c) n then some 0
    else (findTypeIdx rest n).map (· + 1)

/-- Condition `c` sits at index `i` of `m` and is the first entry of its
own type name: exactly what a re-merge of `c` finds and replaces. -/
def PlacedAt (m : List Value) (i : Nat) (c : Value) : Prop :=
  findTypeIdx m (condTypeD c) = some i ∧ m[i]? = some c

/-- One step of the merge loop, once the index of the new condition is
known: replace in place on a hit, append otherwise. -/
def mergeStep (merged : List Value) (c : Value) (rest : List Value) :
    Option Nat → Except PyErr (List Value)
  | some i => merge_loop (merged.set i c) rest
  | none => merge_loop (merged ++ [c]) rest

/-- The distinctness relation on condition types used throughout:
no two entries of the list have `==`-equal `type` values. -/
def TypesDistinct (l : List Value) : Prop :=
  l.Pairwise (fun a b => pyEq (condTypeD a) (condTypeD b) = false)

def wOldCond : Value := .obj [("type", .str "Running"), ("status", .str "True")]

def wNewCond : Value := .obj [("type", .str "Running"), ("status", .str "False")]

def wReadyCond : Value := .obj [("type", .str "Ready"), ("status", .str "True")]

def c1OldCond : Value := .obj [("type", .str "Running"), ("status", .str "True"),
  ("reason", .str "Started"), ("lastTransitionTime", .str "t1")]

def c1NewCond : Value := .obj [("type", .str "Running"), ("status", .str "True"),
  ("reason", .str "Started")]

def c1OldStatus : Value := .obj [("conditions", .list [c1OldCond])]

def c1NewStatus : Value := .obj [("conditions", .list [c1NewCond])]

def c2Observed : Value := .obj [("tags", .list [.str "a", .str "b", .str "c"])]

def c2Desired : Value := .obj [("tags", .list [.str "a", .str "b"])]

def c5Fields : List (String × Value) :=
  [("conditions", .list [.obj [("type", .str "Ready"), ("status", .str "True")]])]

def c5Status : Value := .obj c5Fields

def c5BadCond : Value := .obj [("type", .str "X"), ("status", .str "Maybe")]

def c6HeartbeatCond : Value := .obj [("type", .str "Running"), ("status", .str "True"),
  ("lastHeartbeatTime", .str "garbage")]

def c6TransitionCond : Value := .obj [("type", .str "Running"), ("status", .str "True"),
  ("lastTransitionTime", .str "garbage")]

/-- What the cleaning loop does to one dict condition: remove its
`lastTransitionTime` binding (a no-op when the key is absent). -/
def stripLTT : Value → Value
  | .obj f => .obj (dictDel f "lastTransitionTime")
  | v => v

/-- The caller-visible effect of `clean_last_transition_time`: the
function deep-copies its argument before deleting anything, and the copy
shares no structure with the argument, so the deletions cannot reach the
caller's value; the pair is (returned value, argument after the call). -/
def clean_last_transition_time_effect (status : Value) :
    Except PyErr (Value × Value) := do
  let r ← clean_last_transition_time status
  pure (r, status)

/-! ## Basic lemmas about the embedded Python primitives -/

/-- Whether a value is a Python dict. -/
def isObjV : Value → Bool
  | .obj _ => true
  | _ => false

/-- Whether a value is a scalar (`None`, `bool`, `int` or `str`):
`object_contains` dispatches such observed values to plain `==`. -/
def isScalarV : Value → Bool
  | .null => true
  | .bool _ => true
  | .int _ => true
  | .str _ => true
  | _ => false

/-- Whether a value is structured (a list or a dict). -/
def isCompoundV : Value → Bool
  | .list _ => true
  | .obj _ => true
  | _ => false

theorem pyEq_str_str (a b : String) : pyEq (.str a) (.str b) = (a == b) := rfl

theorem pyEq_str_right {v : Value} {b : String} :
    pyEq v (.str b) = true ↔ v = .str b := by
  cases v with
  | str a =>
    constructor
    · intro h
      exact congrArg Value.str (eq_of_beq h)
    · intro h
      injection h with h1
      subst h1
      exact beq_self_eq_true a
  | null => exact ⟨fun h => absurd h Bool.false_ne_true, nofun⟩
  | bool b2 => exact ⟨fun h => absurd h Bool.false_ne_true, nofun⟩
  | int n => exact ⟨fun h => absurd h Bool.false_ne_true, nofun⟩
  | list l => exact ⟨fun h => absurd h Bool.false_ne_true, nofun⟩
  | obj f => exact ⟨fun h => absurd h Bool.false_ne_true, nofun⟩

theorem pyEq_str_left {v : Value} {a : String} :
    pyEq (.str a) v = true ↔ v = .str a := by
  cases v with
  | str b =>
    constructor
    · intro h
      exact congrArg Value.str (eq_of_beq h).symm
    · intro h
      injection h with h1
      subst h1
      exact beq_self_eq_true _
  | null => exact ⟨fun h => absurd h Bool.false_ne_true, nofun⟩
  | bool b2 => exact ⟨fun h => absurd h Bool.false_ne_true, nofun⟩
  | int n => exact ⟨fun h => absurd h Bool.false_ne_true, nofun⟩
  | list l => exact ⟨fun h => absurd h Bool.false_ne_true, nofun⟩
  | obj f => exact ⟨fun h => absurd h Bool.false_ne_true, nofun⟩

/-- Python `==` between a scalar and a list or dict is `False`. -/
theorem pyEq_scalar_compound {s v : Value}
    (hs : isScalarV s = true) (hv : isCompoundV v = true) :
    pyEq s v = false := by
  cases s <;> cases v <;> first
    | rfl
    | exact absurd hs Bool.false_ne_true
    | exact absurd hv Bool.false_ne_true

theorem set_getElem_self : ∀ (l : List Value) (i : Nat) (c : Value),
    l[i]? = some c → l.set i c = l
  | [], _, _, h => by simp at h
  | x :: xs, 0, c, h => by
    simp at h
    simp [List.set, h]
  | x :: xs, i + 1, c, h => by
    simp at h
    simp [List.set, set_getElem_self xs i c h]

/-! ## The condition-type scan, in pure form -/

theorem exc_bind_ok {α β : Type} (a : α) (f : α → Except PyErr β) :
    (Except.ok a >>= f) = f a := rfl

theorem exc_pure {α : Type} (a : α) : (pure a : Except PyErr α) = Except.ok a := rfl

theorem exc_bind_err {α β : Type} (e : PyErr) (f : α → Except PyErr β) :
    ((Except.error e : Except PyErr α) >>= f) = Except.error e := rfl

theorem condTypeGet_obj {c : Value} (h : isObjV c = true) :
    condTypeGet c = .ok (condTypeD c) := by
  cases c <;> first | rfl | exact absurd h Bool.false_ne_true

theorem hasStrType_isObj {c : Value} (h : hasStrType c = true) : isObjV c = true := by
  cases c <;> first | rfl | exact absurd h Bool.false_ne_true

theorem condTypeD_eq_str {c : Value} (h : hasStrType c = true) :
    condTypeD c = .str (condTypeStr c) := by
  cases c with
  | obj f =>
    simp only [condTypeStr, condTypeD, hasStrType] at h ⊢
    cases hl : dictGetD f "type" <;> rw [hl] at h <;>
      first | rfl | exact absurd h Bool.false_ne_true
  | null => exact absurd h Bool.false_ne_true
  | bool b => exact absurd h Bool.false_ne_true
  | int n => exact absurd h Bool.false_ne_true
  | str s => exact absurd h Bool.false_ne_true
  | list l => exact absurd h Bool.false_ne_true

/-- A string-typed condition answers its own type name to `condition["type"]`. -/
theorem pyIndexStr_type {c : Value} (h : hasStrType c = true) :
    pyIndexStr c "type" = .ok (.str (condTypeStr c)) := by
  cases c with
  | obj f =>
    have hd := condTypeD_eq_str h
    simp only [condTypeD, dictGetD] at hd
    cases hl : lookupKey f "type" with
    | none =>
      rw [hl] at hd
      simp only [Option.getD] at hd
      exact absurd hd (fun hh => Value.noConfusion hh)
    | some w =>
      rw [hl] at hd
      simp only [Option.getD] at hd
      simp only [pyIndexStr, hl, hd]
  | null => exact absurd h Bool.false_ne_true
  | bool b => exact absurd h Bool.false_ne_true
  | int n => exact absurd h Bool.false_ne_true
  | str s => exact absurd h Bool.false_ne_true
  | list l => exact absurd h Bool.false_ne_true

theorem get_condition_idx_eq_findTypeIdx :
    ∀ (m : List Value), (∀ c ∈ m, isObjV c = true) →
      ∀ n, get_condition_idx m n = .ok (findTypeIdx m n)
  | [], _, _ => rfl
  | c :: rest, h, n => by
    have hc : isObjV c = true := h c (by simp)
    have hrest : ∀ x ∈ rest, isObjV x = true := fun x hx => h x (by simp [hx])
    by_cases hp : pyEq (condTypeD c) n = true
    · simp [get_condition_idx, condTypeGet_obj hc, hp, findTypeIdx, exc_bind_ok, exc_pure]
    · simp [get_condition_idx, condTypeGet_obj hc, hp, findTypeIdx, exc_bind_ok, exc_pure,
        get_condition_idx_eq_findTypeIdx rest hrest n]

/-! ## Index lemmas for the merge proofs -/

theorem getq_set_ne : ∀ (l : List Value) (i j : Nat) (c : Value), i ≠ j →
    (l.set i c)[j]? = l[j]?
  | [], _, _, _, _ => by simp
  | x :: xs, 0, 0, c, h => absurd rfl h
  | x :: xs, 0, j + 1, c, h => by simp [List.set]
  | x :: xs, i + 1, 0, c, h => by simp [List.set]
  | x :: xs, i + 1, j + 1, c, h => by
    simp only [List.set, List.getElem?_cons_succ]
    exact getq_set_ne xs i j c (fun hh => h (by rw [hh]))

theorem getq_append_left : ∀ (l l2 : List Value) (i : Nat) (c : Value),
    l[i]? = some c → (l ++ l2)[i]? = some c
  | [], _, i, c, h => by simp at h
  | x :: xs, l2, 0, c, h => by simpa using h
  | x :: xs, l2, i + 1, c, h => by
    simp only [List.cons_append, List.getElem?_cons_succ] at *
    exact getq_append_left xs l2 i c h

theorem findTypeIdx_some_spec : ∀ (m : List Value) (n : Value) (i : Nat),
    findTypeIdx m n = some i → ∃ c, m[i]? = some c ∧ pyEq (condTypeD c) n = true
  | [], n, i, h => by simp [findTypeIdx] at h
  | c :: rest, n, i, h => by
    by_cases hp : pyEq (condTypeD c) n = true
    · simp only [findTypeIdx, hp, if_true] at h
      injection h with h2
      exact ⟨c, by rw [← h2]; simp, hp⟩
    · simp only [findTypeIdx, hp, if_false, Bool.false_eq_true] at h
      cases hr : findTypeIdx rest n with
      | none => rw [hr] at h; simp at h
      | some j =>
        rw [hr] at h
        simp only [Option.map] at h
        injection h with h2
        obtain ⟨c2, hc2, hpc2⟩ := findTypeIdx_some_spec rest n j hr
        refine ⟨c2, ?_, hpc2⟩
        rw [← h2]
        simpa using hc2

theorem findTypeIdx_none_all : ∀ (m : List Value) (n : Value),
    findTypeIdx m n = none → ∀ c ∈ m, pyEq (condTypeD c) n = false
  | [], _, _, c, hc => by simp at hc
  | x :: rest, n, h, c, hc => by
    by_cases hp : pyEq (condTypeD x) n = true
    · simp [findTypeIdx, hp] at h
    · simp only [findTypeIdx, hp, if_false, Bool.false_eq_true] at h
      cases hr : findTypeIdx rest n with
      | some j => rw [hr] at h; simp at h
      | none =>
        rcases List.mem_cons.mp hc with hceq | hcmem
        · rw [hceq]; exact Bool.eq_false_iff.mpr hp
        · exact findTypeIdx_none_all rest n hr c hcmem

theorem findTypeIdx_set_found : ∀ (m : List Value) (i : Nat) (c n : Value),
    findTypeIdx m n = some i → pyEq (condTypeD c) n = true →
    findTypeIdx (m.set i c) n = some i
  | [], i, c, n, h, _ => by simp [findTypeIdx] at h
  | x :: rest, i, c, n, h, hc => by
    by_cases hp : pyEq (condTypeD x) n = true
    · simp only [findTypeIdx, hp, if_true] at h
      injection h with h2
      rw [← h2]
      simp [List.set, findTypeIdx, hc]
    · simp only [findTypeIdx, hp, if_false, Bool.false_eq_true] at h
      cases hr : findTypeIdx rest n with
      | none => rw [hr] at h; simp at h
      | some j =>
        rw [hr] at h
        simp only [Option.map] at h
        injection h with h2
        rw [← h2]
        simp only [List.set, findTypeIdx, hp, if_false, Bool.false_eq_true,
          findTypeIdx_set_found rest j c n hr hc]
        rfl

theorem findTypeIdx_set_other : ∀ (m : List Value) (i j : Nat) (c2 n : Value),
    findTypeIdx m n = some i → pyEq (condTypeD c2) n = false → i ≠ j →
    findTypeIdx (m.set j c2) n = some i
  | [], i, j, c2, n, h, _, _ => by simp [findTypeIdx] at h
  | x :: rest, i, j, c2, n, h, hc2, hij => by
    by_cases hp : pyEq (condTypeD x) n = true
    · simp only [findTypeIdx, hp, if_true] at h
      injection h with h2
      cases j with
      | zero => exact absurd (by rw [← h2]) hij
      | succ j2 =>
        rw [← h2]
        simp [List.set, findTypeIdx, hp]
    · simp only [findTypeIdx, hp, if_false, Bool.false_eq_true] at h
      cases hr : findTypeIdx rest n with
      | none => rw [hr] at h; simp at h
      | some i2 =>
        rw [hr] at h
        simp only [Option.map] at h
        injection h with h2
        cases j with
        | zero =>
          rw [← h2]
          simp [List.set, findTypeIdx, hc2, hr]
        | succ j2 =>
          rw [← h2]
          have hne : i2 ≠ j2 := by
            intro hh
            exact hij (by rw [← h2, hh])
          simp only [List.set, findTypeIdx, hp, if_false, Bool.false_eq_true,
            findTypeIdx_set_other rest i2 j2 c2 n hr hc2 hne]
          rfl

theorem findTypeIdx_append_some : ∀ (m l2 : List Value) (n : Value) (i : Nat),
    findTypeIdx m n = some i → findTypeIdx (m ++ l2) n = some i
  | [], _, n, i, h => by simp [findTypeIdx] at h
  | x :: rest, l2, n, i, h => by
    by_cases hp : pyEq (condTypeD x) n = true
    · simp only [findTypeIdx, hp, if_true] at h
      simp [List.cons_append, findTypeIdx, hp, h]
    · simp only [findTypeIdx, hp, if_false, Bool.false_eq_true] at h
      cases hr : findTypeIdx rest n with
      | none => rw [hr] at h; simp at h
      | some i2 =>
        rw [hr] at h
        have h3 := findTypeIdx_append_some rest l2 n i2 hr
        show (if pyEq (condTypeD x) n then some 0
          else (findTypeIdx (rest ++ l2) n).map (· + 1)) = some i
        rw [if_neg hp, h3]
        exact h

theorem findTypeIdx_append_new : ∀ (m : List Value) (c n : Value),
    findTypeIdx m n = none → pyEq (condTypeD c) n = true →
    findTypeIdx (m ++ [c]) n = some m.length
  | [], c, n, _, hc => by simp [findTypeIdx, hc]
  | x :: rest, c, n, h, hc => by
    by_cases hp : pyEq (condTypeD x) n = true
    · simp [findTypeIdx, hp] at h
    · simp only [findTypeIdx, hp, if_false, Bool.false_eq_true] at h
      cases hr : findTypeIdx rest n with
      | some j => rw [hr] at h; simp at h
      | none =>
        have h3 := findTypeIdx_append_new rest c n hr hc
        show (if pyEq (condTypeD x) n then some 0
          else (findTypeIdx (rest ++ [c]) n).map (· + 1)) = some (x :: rest).length
        rw [if_neg hp, h3]
        rfl

/-! ## Placement of conditions through the merge loop -/

theorem getq_set_self_of_lt : ∀ (l : List Value) (i : Nat) (c x : Value),
    l[i]? = some x → (l.set i c)[i]? = some c
  | [], i, c, x, h => by simp at h
  | y :: ys, 0, c, x, _ => by simp [List.set]
  | y :: ys, i + 1, c, x, h => by
    simp only [List.getElem?_cons_succ] at h
    simp only [List.set, List.getElem?_cons_succ]
    exact getq_set_self_of_lt ys i c x h

theorem getq_append_len : ∀ (m : List Value) (c : Value), (m ++ [c])[m.length]? = some c
  | [], c => rfl
  | x :: xs, c => by
    simp only [List.cons_append, List.length_cons, List.getElem?_cons_succ]
    exact getq_append_len xs c

theorem pyEq_condType_self {c : Value} (h : hasStrType c = true) :
    pyEq (condTypeD c) (condTypeD c) = true := by
  rw [condTypeD_eq_str h, pyEq_str_str]
  exact beq_self_eq_true _

theorem pyEq_condType_symm {a b : Value} (ha : hasStrType a = true) (hb : hasStrType b = true) :
    pyEq (condTypeD a) (condTypeD b) = pyEq (condTypeD b) (condTypeD a) := by
  rw [condTypeD_eq_str ha, condTypeD_eq_str hb, pyEq_str_str, pyEq_str_str]
  by_cases h : condTypeStr a = condTypeStr b
  · rw [h]
  · rw [beq_eq_false_iff_ne.mpr h, beq_eq_false_iff_ne.mpr (fun hh => h hh.symm)]

theorem placed_set_found {m : List Value} {j : Nat} {c : Value}
    (hc : hasStrType c = true) (hj : findTypeIdx m (condTypeD c) = some j) :
    PlacedAt (m.set j c) j c := by
  obtain ⟨x, hx, _⟩ := findTypeIdx_some_spec m (condTypeD c) j hj
  exact ⟨findTypeIdx_set_found m j c (condTypeD c) hj (pyEq_condType_self hc),
    getq_set_self_of_lt m j c x hx⟩

theorem placed_append_new {m : List Value} {c : Value}
    (hc : hasStrType c = true) (hnone : findTypeIdx m (condTypeD c) = none) :
    PlacedAt (m ++ [c]) m.length c :=
  ⟨findTypeIdx_append_new m c (condTypeD c) hnone (pyEq_condType_self hc),
    getq_append_len m c⟩

theorem placed_set_other {m : List Value} {i j : Nat} {c c2 : Value}
    (hp : PlacedAt m i c) (hc : hasStrType c = true) (hc2 : hasStrType c2 = true)
    (hne : pyEq (condTypeD c2) (condTypeD c) = false)
    (hj : findTypeIdx m (condTypeD c2) = some j) :
    PlacedAt (m.set j c2) i c := by
  obtain ⟨hfind, hget⟩ := hp
  have hij : i ≠ j := by
    intro hEq
    subst hEq
    obtain ⟨x, hx, hpx⟩ := findTypeIdx_some_spec m (condTypeD c2) i hj
    rw [hget] at hx
    injection hx with hx2
    subst hx2
    rw [condTypeD_eq_str hc, condTypeD_eq_str hc2, pyEq_str_str] at hpx hne
    have heq := eq_of_beq hpx
    rw [← heq] at hne
    simp at hne
  refine ⟨findTypeIdx_set_other m i j c2 (condTypeD c) hfind hne hij, ?_⟩
  rw [getq_set_ne m j i c2 (fun hh => hij hh.symm)]
  exact hget

theorem placed_append {m : List Value} {i : Nat} {c : Value} (l2 : List Value)
    (hp : PlacedAt m i c) : PlacedAt (m ++ l2) i c :=
  ⟨findTypeIdx_append_some m l2 (condTypeD c) i hp.1,
    getq_append_left m l2 i c hp.2⟩

/-- Unfolding of one merge-loop step once the name lookup and the index
scan are known. -/
theorem merge_loop_cons_eq (merged : List Value) (c : Value) (rest : List Value)
    (nv : Value) (hname : pyIndexStr c "type" = .ok nv)
    (r : Option Nat) (hidx : get_condition_idx merged nv = .ok r) :
    merge_loop merged (c :: rest) = mergeStep merged c rest r := by
  simp only [merge_loop, hname, hidx, exc_bind_ok]
  cases r <;> rfl

/-- Running the merge loop on well-formed inputs: the loop cannot fail,
its result keeps every element a dict, never shrinks, preserves the
placement of conditions whose type appears nowhere in the remaining input,
and places every processed condition at the first index of its type. -/
theorem merge_loop_main : ∀ (rest m : List Value),
    (∀ x ∈ m, isObjV x = true) →
    (∀ x ∈ rest, hasStrType x = true) →
    TypesDistinct rest →
    ∃ m2, merge_loop m rest = .ok m2 ∧
      (∀ x ∈ m2, isObjV x = true) ∧
      m.length ≤ m2.length ∧
      (∀ i c, hasStrType c = true →
        (∀ x ∈ rest, pyEq (condTypeD x) (condTypeD c) = false) →
        PlacedAt m i c → PlacedAt m2 i c) ∧
      (∀ x ∈ rest, ∃ i, PlacedAt m2 i x)
  | [], m, hm, _, _ =>
    ⟨m, rfl, hm, Nat.le_refl _, fun _ _ _ _ hp => hp, fun x hx => by simp at hx⟩
  | c :: cs, m, hm, hrest, hdist => by
    have hc : hasStrType c = true := hrest c (by simp)
    have hcs : ∀ x ∈ cs, hasStrType x = true := fun x hx => hrest x (by simp [hx])
    obtain ⟨hdhead, hdtail⟩ := List.pairwise_cons.mp hdist
    have hobjc : isObjV c = true := hasStrType_isObj hc
    have hname : pyIndexStr c "type" = .ok (condTypeD c) := by
      rw [pyIndexStr_type hc, ← condTypeD_eq_str hc]
    have hidx := get_condition_idx_eq_findTypeIdx m hm (condTypeD c)
    have hloop := merge_loop_cons_eq m c cs (condTypeD c) hname
      (findTypeIdx m (condTypeD c)) hidx
    cases hf : findTypeIdx m (condTypeD c) with
    | some j =>
      rw [hf] at hloop
      rw [show mergeStep m c cs (some j) = merge_loop (m.set j c) cs from rfl] at hloop
      have hm1 : ∀ x ∈ m.set j c, isObjV x = true := by
        intro x hx
        rcases List.mem_or_eq_of_mem_set hx with hx2 | hx2
        · exact hm x hx2
        · rw [hx2]; exact hobjc
      obtain ⟨m2, heq2, hobj2, hlen2, hpres2, hplace2⟩ :=
        merge_loop_main cs (m.set j c) hm1 hcs hdtail
      refine ⟨m2, by rw [hloop]; exact heq2, hobj2, ?_, ?_, ?_⟩
      · calc m.length = (m.set j c).length := (List.length_set ..).symm
          _ ≤ m2.length := hlen2
      · intro i c0 hc0 hall hp
        have hne : pyEq (condTypeD c) (condTypeD c0) = false := hall c (by simp)
        exact hpres2 i c0 hc0 (fun x hx => hall x (by simp [hx]))
          (placed_set_other hp hc0 hc hne hf)
      · intro x hx
        rcases List.mem_cons.mp hx with hx2 | hx2
        · subst hx2
          refine ⟨j, hpres2 j x hc ?_ (placed_set_found hc hf)⟩
          intro y hy
          rw [pyEq_condType_symm (hcs y hy) hc]
          exact hdhead y hy
        · exact hplace2 x hx2
    | none =>
      rw [hf] at hloop
      rw [show mergeStep m c cs none = merge_loop (m ++ [c]) cs from rfl] at hloop
      have hm1 : ∀ x ∈ m ++ [c], isObjV x = true := by
        intro x hx
        rcases List.mem_append.mp hx with hx2 | hx2
        · exact hm x hx2
        · rw [List.mem_singleton.mp hx2]; exact hobjc
      obtain ⟨m2, heq2, hobj2, hlen2, hpres2, hplace2⟩ :=
        merge_loop_main cs (m ++ [c]) hm1 hcs hdtail
      refine ⟨m2, by rw [hloop]; exact heq2, hobj2, ?_, ?_, ?_⟩
      · calc m.length ≤ (m ++ [c]).length := by simp
          _ ≤ m2.length := hlen2
      · intro i c0 hc0 hall hp
        exact hpres2 i c0 hc0 (fun x hx => hall x (by simp [hx]))
          (placed_append [c] hp)
      · intro x hx
        rcases List.mem_cons.mp hx with hx2 | hx2
        · subst hx2
          refine ⟨m.length, hpres2 m.length x hc ?_ (placed_append_new hc hf)⟩
          intro y hy
          rw [pyEq_condType_symm (hcs y hy) hc]
          exact hdhead y hy
        · exact hplace2 x hx2

/-- Re-merging conditions that are already placed at the first index of
their own type leaves the merged list untouched. -/
theorem merge_loop_self : ∀ (new m : List Value),
    (∀ x ∈ m, isObjV x = true) →
    (∀ x ∈ new, hasStrType x = true ∧ ∃ i, PlacedAt m i x) →
    merge_loop m new = .ok m
  | [], _, _, _ => rfl
  | c :: cs, m, hm, hplaced => by
    obtain ⟨hc, i, hpl⟩ := hplaced c (by simp)
    obtain ⟨hfind, hget⟩ := hpl
    have hname : pyIndexStr c "type" = .ok (condTypeD c) := by
      rw [pyIndexStr_type hc, ← condTypeD_eq_str hc]
    have hidx := get_condition_idx_eq_findTypeIdx m hm (condTypeD c)
    rw [hfind] at hidx
    have hloop := merge_loop_cons_eq m c cs (condTypeD c) hname (some i) hidx
    rw [hloop, show mergeStep m c cs (some i) = merge_loop (m.set i c) cs from rfl,
      set_getElem_self m i c hget]
    exact merge_loop_self cs m hm (fun x hx => hplaced x (by simp [hx]))

/-- In a list of string-typed conditions with pairwise distinct type
names, every condition is placed at its own (first) index. -/
theorem self_placed : ∀ (new : List Value),
    (∀ x ∈ new, hasStrType x = true) →
    TypesDistinct new →
    ∀ x ∈ new, ∃ i, PlacedAt new i x
  | [], _, _, x, hx => by simp at hx
  | c :: cs, hstr, hdist, x, hx => by
    obtain ⟨hdhead, hdtail⟩ := List.pairwise_cons.mp hdist
    have hc : hasStrType c = true := hstr c (by simp)
    rcases List.mem_cons.mp hx with hx2 | hx2
    · subst hx2
      refine ⟨0, ?_, by simp⟩
      show findTypeIdx (x :: cs) (condTypeD x) = some 0
      simp [findTypeIdx, pyEq_condType_self hc]
    · obtain ⟨i, hfind, hget⟩ :=
        self_placed cs (fun y hy => hstr y (by simp [hy])) hdtail x hx2
      refine ⟨i + 1, ?_, by simpa using hget⟩
      show findTypeIdx (c :: cs) (condTypeD x) = some (i + 1)
      have hne : pyEq (condTypeD c) (condTypeD x) = false := hdhead x hx2
      simp [findTypeIdx, hne, hfind]

/-- C7: `mergeConditions` is idempotent — for all valid condition lists
`old` (dict conditions) and `new` (validated conditions: dicts with
string `type` fields, no two sharing a type), merging `new` into the
result of merging `new` into `old` yields that result again. -/
theorem merge_conditions_idempotent (old new m : List Value)
    (hold : ∀ c ∈ old, isObjV c = true)
    (hnew : ∀ c ∈ new, hasStrType c = true)
    (hdist : TypesDistinct new)
    (hm : merge_conditions old new = .ok m) :
    merge_conditions m new = .ok m := by
  rcases new with _ | ⟨c, cs⟩
  · have h0 : merge_conditions old ([] : List Value) = .ok [] := by
      simp [merge_conditions]
    rw [h0] at hm
    injection hm with hm2
    rw [← hm2]
    simp [merge_conditions]
  · rcases old with _ | ⟨o, os⟩
    · have h0 : merge_conditions [] (c :: cs) = .ok (c :: cs) := by
        simp [merge_conditions]
      rw [h0] at hm
      injection hm with hm2
      subst hm2
      have hobj : ∀ x ∈ c :: cs, isObjV x = true :=
        fun x hx => hasStrType_isObj (hnew x hx)
      have hplaced := self_placed (c :: cs) hnew hdist
      have hml := merge_loop_self (c :: cs) (c :: cs) hobj
        (fun x hx => ⟨hnew x hx, hplaced x hx⟩)
      simpa [merge_conditions] using hml
    · have hm2 : merge_loop (o :: os) (c :: cs) = .ok m := by
        simpa [merge_conditions] using hm
      obtain ⟨m2, heq2, hobj2, hlen2, _, hplace2⟩ :=
        merge_loop_main (c :: cs) (o :: os) hold hnew hdist
      rw [hm2] at heq2
      injection heq2 with hmm
      subst hmm
      have hmne : m.isEmpty = false := by
        cases m with
        | nil => simp at hlen2
        | cons _ _ => rfl
      have hml := merge_loop_self (c :: cs) m hobj2
        (fun x hx => ⟨hnew x hx, hplace2 x hx⟩)
      simp [merge_conditions, hmne, hml]

theorem merge_conditions_idempotent_witness :
    merge_conditions [wOldCond] [wNewCond] = .ok [wNewCond] ∧
    merge_conditions [wNewCond] [wNewCond] = .ok [wNewCond] :=
  ⟨by decide, merge_conditions_idempotent [wOldCond] [wNewCond] [wNewCond]
    (by decide) (by decide) (by simp [TypesDistinct]) (by decide)⟩

/-! ## Preservation of type uniqueness -/

theorem getq_map : ∀ (l : List Value) (i : Nat),
    (l.map condTypeD)[i]? = l[i]?.map condTypeD
  | [], i => by simp
  | x :: xs, 0 => by simp
  | x :: xs, i + 1 => by
    simp only [List.map_cons, List.getElem?_cons_succ]
    exact getq_map xs i

theorem map_set_comm : ∀ (l : List Value) (j : Nat) (c : Value),
    (l.set j c).map condTypeD = (l.map condTypeD).set j (condTypeD c)
  | [], _, _ => by simp
  | x :: xs, 0, c => by simp [List.set]
  | x :: xs, j + 1, c => by
    simp only [List.set, List.map_cons]
    rw [map_set_comm xs j c]

/-- Replacing the first entry of a type with a condition of that same type
does not change the list of type values, hence keeps them distinct. -/
theorem distinct_set {m : List Value} {j : Nat} {c : Value}
    (hd : TypesDistinct m) (hc : hasStrType c = true)
    (hj : findTypeIdx m (condTypeD c) = some j) :
    TypesDistinct (m.set j c) := by
  unfold TypesDistinct at hd ⊢
  have hd2 : (m.map condTypeD).Pairwise (fun a b => pyEq a b = false) :=
    (List.pairwise_map).mpr hd
  have hgoal : ((m.set j c).map condTypeD).Pairwise (fun a b => pyEq a b = false) := by
    rw [map_set_comm]
    obtain ⟨x, hx, hpx⟩ := findTypeIdx_some_spec m (condTypeD c) j hj
    have hxc : condTypeD x = condTypeD c := by
      rw [condTypeD_eq_str hc] at hpx ⊢
      exact pyEq_str_right.mp hpx
    have hmap : (m.map condTypeD)[j]? = some (condTypeD c) := by
      rw [getq_map, hx]
      simp [hxc]
    rw [set_getElem_self (m.map condTypeD) j (condTypeD c) hmap]
    exact hd2
  exact (List.pairwise_map).mp hgoal

/-- Appending a condition whose type occurs nowhere in the list keeps the
types distinct. -/
theorem distinct_append_new {m : List Value} {c : Value}
    (hd : TypesDistinct m)
    (hnone : findTypeIdx m (condTypeD c) = none) :
    TypesDistinct (m ++ [c]) := by
  unfold TypesDistinct at hd ⊢
  rw [List.pairwise_append]
  refine ⟨hd, by simp, ?_⟩
  intro a ha b hb
  rw [List.mem_singleton.mp hb]
  exact findTypeIdx_none_all m (condTypeD c) hnone a ha

theorem merge_loop_distinct : ∀ (rest m m2 : List Value),
    (∀ x ∈ m, isObjV x = true) →
    (∀ x ∈ rest, hasStrType x = true) →
    TypesDistinct m →
    merge_loop m rest = .ok m2 →
    TypesDistinct m2
  | [], m, m2, _, _, hd, heq => by
    injection heq with h2
    rw [← h2]
    exact hd
  | c :: cs, m, m2, hm, hrest, hd, heq => by
    have hc : hasStrType c = true := hrest c (by simp)
    have hobjc := hasStrType_isObj hc
    have hname : pyIndexStr c "type" = .ok (condTypeD c) := by
      rw [pyIndexStr_type hc, ← condTypeD_eq_str hc]
    have hidx := get_condition_idx_eq_findTypeIdx m hm (condTypeD c)
    have hloop := merge_loop_cons_eq m c cs (condTypeD c) hname
      (findTypeIdx m (condTypeD c)) hidx
    cases hf : findTypeIdx m (condTypeD c) with
    | some j =>
      rw [hloop, hf,
        show mergeStep m c cs (some j) = merge_loop (m.set j c) cs from rfl] at heq
      have hm1 : ∀ x ∈ m.set j c, isObjV x = true := by
        intro x hx
        rcases List.mem_or_eq_of_mem_set hx with hx2 | hx2
        · exact hm x hx2
        · rw [hx2]; exact hobjc
      exact merge_loop_distinct cs (m.set j c) m2 hm1
        (fun x hx => hrest x (by simp [hx])) (distinct_set hd hc hf) heq
    | none =>
      rw [hloop, hf,
        show mergeStep m c cs none = merge_loop (m ++ [c]) cs from rfl] at heq
      have hm1 : ∀ x ∈ m ++ [c], isObjV x = true := by
        intro x hx
        rcases List.mem_append.mp hx with hx2 | hx2
        · exact hm x hx2
        · rw [List.mem_singleton.mp hx2]; exact hobjc
      exact merge_loop_distinct cs (m ++ [c]) m2 hm1
        (fun x hx => hrest x (by simp [hx])) (distinct_append_new hd hf) heq

/-- C8: type uniqueness is preserved by merging — for condition lists
`old` (dict conditions with no two `==`-equal types) and `new` (validated:
string-typed, no two sharing a type), the merge result never contains two
entries with the same type. -/
theorem merge_conditions_type_unique (old new m : List Value)
    (hold : ∀ c ∈ old, isObjV c = true)
    (hnew : ∀ c ∈ new, hasStrType c = true)
    (holdD : TypesDistinct old)
    (hnewD : TypesDistinct new)
    (hm : merge_conditions old new = .ok m) :
    TypesDistinct m := by
  rcases new with _ | ⟨c, cs⟩
  · have h0 : merge_conditions old ([] : List Value) = .ok [] := by
      simp [merge_conditions]
    rw [h0] at hm
    injection hm with h2
    rw [← h2]
    exact List.Pairwise.nil
  · rcases old with _ | ⟨o, os⟩
    · have h0 : merge_conditions [] (c :: cs) = .ok (c :: cs) := by
        simp [merge_conditions]
      rw [h0] at hm
      injection hm with h2
      rw [← h2]
      exact hnewD
    · have hm2 : merge_loop (o :: os) (c :: cs) = .ok m := by
        simpa [merge_conditions] using hm
      exact merge_loop_distinct (c :: cs) (o :: os) m hold hnew holdD hm2

theorem merge_conditions_type_unique_witness :
    merge_conditions [wReadyCond] [wNewCond] = .ok [wReadyCond, wNewCond] ∧
    TypesDistinct [wReadyCond, wNewCond] :=
  ⟨by decide,
    merge_conditions_type_unique [wReadyCond] [wNewCond] [wReadyCond, wNewCond]
      (by decide) (by decide) (by simp [TypesDistinct])
      (by simp [TypesDistinct]) (by decide)⟩

/-! ## C1 — no-transition merge behaviour -/

/-- C1 counterexample: for the claim's own inputs, `merge_status`'s loop
replaces the matching old entry unconditionally — there is no transition
check in the merge — so the merged list is not `old`: the old entry's
`lastTransitionTime` is dropped by the merge itself. -/
theorem merge_no_transition_counterexample :
    merge_conditions [c1OldCond] [c1NewCond] ≠ .ok [c1OldCond] := by decide

/-- C1 amended: the merge replaces a matching entry unconditionally,
with no per-field transition test (`merge_conditions old new` yields the
new entry, not the old one); the timestamp-preservation behaviour the
claim describes holds one level up: `patch` strips `lastTransitionTime`
from a copy of the observed status, finds the desired status contained,
and decides NoChange — the merge is never invoked and the observed
instance (with `t1`) is returned unchanged. -/
theorem merge_no_transition_amended :
    merge_conditions [c1OldCond] [c1NewCond] = .ok [c1NewCond] ∧
    patch_decision c1OldStatus c1NewStatus = .ok Decision.noChange := by decide

/-! ## C2 — the `replace_lists` toggle does not exist -/

/-- C2 counterexample: the module's argument specification recognizes no
`replace_lists` parameter, and for the claim's example the decision is
NoChange — there is no toggle under which the module would decide Patch
for this input. -/
theorem replace_lists_counterexample :
    "replace_lists" ∉ argspec_keys ∧
    patch_decision c2Observed c2Desired = .ok Decision.noChange := by decide

/-- C2 amended: the code has no `replace_lists` option (the status
argument spec holds exactly `status`, `conditions` and `replace`); list
containment always uses the subset policy, so observed
`tags:["a","b","c"]` contains desired `tags:["a","b"]` and the decision
is NoChange. -/
theorem replace_lists_amended :
    STATUS_ARG_SPEC_KEYS = ["status", "conditions", "replace"] ∧
    object_contains c2Observed c2Desired = .ok true ∧
    patch_decision c2Observed c2Desired = .ok Decision.noChange := by decide

/-! ## C3 — the replace path is unreachable -/

/-- C3: for every invocation with the replace flag set, `execute_module`
raises `TypeError` instead of comparing statuses: `__init__` stores the
Boolean parameter in `self.replace`, shadowing the `replace` method, so
`self.replace(resource, instance)` calls a `bool`.  The full-equality
comparison the claim describes sits in the shadowed method and is
unreachable. -/
theorem replace_flag_raises (observedStatus desiredStatus : Value) :
    execute_decision true observedStatus desiredStatus =
      .error (.typeError "bool object is not callable") := rfl

/-! ## C4 — shape mismatches in containment -/

/-- C4 counterexample: containment raises `AttributeError` when the
observed value at a key is a dict and the desired value is a scalar
(`subset.items()` on an `int`), so the decision computation is not a
total function on validated input. -/
theorem object_contains_raises_counterexample :
    object_contains (.obj [("a", .obj [("x", .int 1)])]) (.obj [("a", .int 5)])
      = .error (.attributeError "items") := by decide

/-- C4 amended: when the observed value at the key is a scalar, a shape
mismatch against a structured desired value is reported as not-contained
(the dispatch falls through to plain `==`, which is `False` across
shapes); but when the observed value is a dict or a list, a mismatched
desired value makes the check raise instead of returning `false`. -/
theorem contains_scalar_observed_mismatch (k : String) (s v : Value)
    (hs : isScalarV s = true) (hv : isCompoundV v = true) :
    object_contains (.obj [(k, s)]) (.obj [(k, v)]) = .ok false := by
  have hpe := pyEq_scalar_compound hs hv
  show dict_is_subset (.obj [(k, s)]) (.obj [(k, v)]) = .ok false
  have hget : ∀ w : Value, pyGetAttrGet (.obj [(k, w)]) k = .ok w := by
    intro w
    simp [pyGetAttrGet, dictGetD, lookupKey]
  cases s with
  | null => simp [dict_is_subset, containsPairs, hget, hpe, exc_bind_ok, exc_pure]
  | bool b => simp [dict_is_subset, containsPairs, hget, hpe, exc_bind_ok, exc_pure]
  | int n => simp [dict_is_subset, containsPairs, hget, hpe, exc_bind_ok, exc_pure]
  | str t => simp [dict_is_subset, containsPairs, hget, hpe, exc_bind_ok, exc_pure]
  | list l => exact absurd hs Bool.false_ne_true
  | obj f => exact absurd hs Bool.false_ne_true

theorem contains_scalar_observed_mismatch_witness :
    isScalarV (.int 7) = true ∧ isCompoundV (.obj [("b", .int 1)]) = true ∧
    object_contains (.obj [("a", .int 7)]) (.obj [("a", .obj [("b", .int 1)])])
      = .ok false :=
  ⟨rfl, rfl, contains_scalar_observed_mismatch "a" (.int 7) (.obj [("b", .int 1)]) rfl rfl⟩

/-! ## C5 — order of the conflict check -/

/-- C5 counterexample: with both a standalone `conditions` parameter and a
populated `status.conditions`, initialization validates the standalone
conditions first (line 373) and only then checks for the conflict (line
375) — an invalid condition therefore fails with the enum validation
error, not with the conflict error. -/
theorem conflict_after_validation_counterexample :
    module_init (some c5Status) (some [c5BadCond]) =
      .error (.valueError
        "Condition `status` must be one of [\"True\", \"False\", \"Unknown\"], not Maybe") ∧
    PyErr.valueError
        "Condition `status` must be one of [\"True\", \"False\", \"Unknown\"], not Maybe"
      ≠ PyErr.valueError CONFLICT_MSG := by decide

/-- C5 amended: the conflict check runs after the standalone conditions
have validated; when they validate to a non-empty list and the status is
truthy with a truthy `conditions` field, initialization fails with the
conflict error — still before any merge attempt, which only ever happens
later in the patch path. -/
theorem module_init_conflict (f : List (String × Value)) (conds cs : List Value)
    (hv : validate_conditions conds = .ok cs)
    (hne : cs.isEmpty = false)
    (hst : pyTruthy (.obj f) = true)
    (hsc : pyTruthy (dictGetD f "conditions") = true) :
    module_init (some (.obj f)) (some conds) = .error (.valueError CONFLICT_MSG) := by
  have hne2 : cs ≠ [] := by
    intro hh
    rw [hh] at hne
    exact Bool.noConfusion hne
  simp [module_init, hv, hne, hst, hsc, pyGetAttrGet, exc_bind_ok, exc_pure]
  exact fun h2 => absurd h2 hne2

theorem module_init_conflict_witness :
    validate_conditions [wNewCond] = .ok [wNewCond] ∧
    module_init (some c5Status) (some [wNewCond]) = .error (.valueError CONFLICT_MSG) :=
  ⟨by decide, module_init_conflict c5Fields [wNewCond] [wNewCond]
    (by decide) (by decide) (by decide) (by decide)⟩

/-! ## C6 — the misspelled heartbeat key skips RFC3339 validation -/

/-- C6: a malformed `lastTransitionTime` is rejected with the format
error, but a malformed `lastHeartbeatTime` is accepted unchanged: the
format loop (line 268) checks the misspelled key `lastHeartBeatTime`
(capital B), which can never be present because the unknown-field check
rejects it, so the heartbeat timestamp is never format-checked. -/
theorem heartbeat_format_not_validated :
    rfc3339_match "garbage" = false ∧
    validate_conditions [c6HeartbeatCond] = .ok [c6HeartbeatCond] ∧
    validate_conditions [c6TransitionCond] =
      .error (.valueError "`lastTransitionTime` must be a RFC3339 compliant datetime string") := by
  decide

/-! ## C9 — frame and shape of the cleaning pass -/

theorem dictDel_absent : ∀ (f : List (String × Value)) (key : String),
    lookupKey f key = none → dictDel f key = f
  | [], _, _ => rfl
  | (k, v) :: rest, key, h => by
    rw [lookupKey] at h
    by_cases hk : (k == key) = true
    · rw [if_pos hk] at h
      exact Option.noConfusion h
    · rw [if_neg hk] at h
      have hk2 : k ≠ key := fun hh => hk (by rw [hh]; exact beq_self_eq_true key)
      have hd : (decide (k ≠ key)) = true := decide_eq_true hk2
      simp only [dictDel, List.filter, hd]
      have hrest := dictDel_absent rest key h
      simp only [dictDel] at hrest
      rw [hrest]

theorem clean_condition_item_obj {c : Value} (h : isObjV c = true) :
    clean_condition_item c = .ok (stripLTT c) := by
  cases c with
  | obj f =>
    simp only [clean_condition_item, pyInStr, exc_bind_ok]
    by_cases hp : (lookupKey f "lastTransitionTime").isSome
    · simp [hp, stripLTT, exc_pure]
    · have hnone : lookupKey f "lastTransitionTime" = none :=
        Option.not_isSome_iff_eq_none.mp hp
      simp [hp, stripLTT, dictDel_absent f _ hnone, exc_pure]
  | null => exact absurd h Bool.false_ne_true
  | bool b => exact absurd h Bool.false_ne_true
  | int n => exact absurd h Bool.false_ne_true
  | str s => exact absurd h Bool.false_ne_true
  | list l => exact absurd h Bool.false_ne_true

theorem mapM_ok_of_pointwise {α β : Type} (f : α → Except PyErr β) (g : α → β) :
    ∀ (l : List α), (∀ a ∈ l, f a = .ok (g a)) → l.mapM f = .ok (l.map g)
  | [], _ => rfl
  | a :: as, h => by
    simp only [List.mapM_cons, h a (by simp),
      mapM_ok_of_pointwise f g as (fun x hx => h x (by simp [hx])),
      exc_bind_ok, exc_pure, List.map_cons]

/-- C9: `clean_last_transition_time` never mutates its argument — the
argument after the call is the input itself — and the returned document
equals the input except that every element of its conditions list has its
`lastTransitionTime` binding removed, with the other fields, the other
per-condition fields and the condition order identical. -/
theorem clean_last_transition_time_spec (fields : List (String × Value)) (items : List Value)
    (hc : lookupKey fields "conditions" = some (.list items))
    (hobj : ∀ c ∈ items, isObjV c = true) :
    clean_last_transition_time_effect (.obj fields) =
      .ok (.obj (dictSet fields "conditions" (.list (items.map stripLTT))), .obj fields) := by
  have hmap := mapM_ok_of_pointwise clean_condition_item stripLTT items
    (fun c hcm => clean_condition_item_obj (hobj c hcm))
  have hclean : clean_last_transition_time (.obj fields) =
      .ok (.obj (dictSet fields "conditions" (.list (items.map stripLTT)))) := by
    simp only [clean_last_transition_time, hc]
    rw [hmap]
    rfl
  simp [clean_last_transition_time_effect, hclean, exc_bind_ok, exc_pure]

theorem clean_last_transition_time_spec_witness :
    lookupKey [("conditions", Value.list [c1OldCond])] "conditions"
      = some (.list [c1OldCond]) ∧
    clean_last_transition_time_effect c1OldStatus =
      .ok (.obj (dictSet [("conditions", Value.list [c1OldCond])] "conditions"
        (.list ([c1OldCond].map stripLTT))), c1OldStatus) :=
  ⟨by decide, clean_last_transition_time_spec
    [("conditions", Value.list [c1OldCond])] [c1OldCond] (by decide) (by decide)⟩

/-! ## C10 — the empty desired status is always contained -/

/-- C10: an empty desired status is contained in every observed status
(`object_contains obj {} = true` with no constraint on `obj`); an
invocation that supplies neither a status nor conditions initializes the
desired status to the empty dict; and the merge path then decides
NoChange, returning the observed instance unchanged. -/
theorem empty_desired_no_change (observed cleaned : Value)
    (h : clean_last_transition_time observed = .ok cleaned) :
    object_contains observed (.obj []) = .ok true ∧
    module_init none none = .ok (.obj []) ∧
    patch_decision observed (.obj []) = .ok Decision.noChange := by
  refine ⟨rfl, rfl, ?_⟩
  have hoc : object_contains cleaned (.obj []) = .ok true := rfl
  simp [patch_decision, h, hoc, exc_bind_ok, exc_pure]

theorem empty_desired_no_change_witness :
    clean_last_transition_time c1OldStatus = .ok (.obj [("conditions", .list [c1NewCond])]) ∧
    patch_decision c1OldStatus (.obj []) = .ok Decision.noChange :=
  ⟨by decide,
    (empty_desired_no_change c1OldStatus (.obj [("conditions", .list [c1NewCond])])
      (by decide)).2.2⟩
